import Mathlib

set_option linter.unusedVariables false

-- ======================================================================
-- Verification development for the Leo expression-to-constraint compiler
-- slice: the uint16 gadget operations (compiler/src/constraints/integer/
-- uint16.rs), the expression IR and its lowering (types/src/expression.rs)
-- and the verification-key output file (package/src/outputs/
-- verification_key.rs).
-- ======================================================================

namespace Leo.Compiler

/-- Gadget integer of width 16.  Modelled from the spec: each numeric value
wraps a constraint-system-backed representation that is simultaneously an
(optional) concrete witness and a set of allocation constraints; during
setup-only synthesis the concrete witness may be absent (`none`). -/
structure UInt16 where
  value : Option Nat
deriving DecidableEq, Repr

/-- Modelled from the spec: the error kinds of the constraint-system
collaborator (`snarkos_errors::gadgets::SynthesisError`), separating a
missing witness assignment from a rejected constraint and from a
division by zero, which "is a synthesis-time failure, not a panic". -/
inductive SynthesisError where
  | assignmentMissing
  | divisionByZero
  | unsatisfiable
deriving DecidableEq, Repr

/-- Modelled from the spec: the typed integer-operation error of the
compiler crate (`errors::IntegerError`), into which a `SynthesisError`
is converted when an enforce operation propagates it with `?`. -/
inductive IntegerError where
  | synthesisError (e : SynthesisError)
deriving DecidableEq, Repr

-- Namespace labels, exactly as produced by the format strings in
-- compiler/src/constraints/integer/uint16.rs.

/-- Label of `enforce_u16_eq`: the constant string of
`format!("enforce u16 equal")`; it does not mention the operands. -/
def u16EqLabel : String := "enforce u16 equal"

/-- Label of `enforce_u16_add` built from the unwrapped witness values:
`format!("enforce {} + {}", left.value.unwrap(), right.value.unwrap())`. -/
def u16AddLabel (l r : Nat) : String :=
  "enforce " ++ toString l ++ " + " ++ toString r

/-- Label of `enforce_u16_sub` built from the unwrapped witness values. -/
def u16SubLabel (l r : Nat) : String :=
  "enforce " ++ toString l ++ " - " ++ toString r

/-- Label of `enforce_u16_mul` built from the unwrapped witness values. -/
def u16MulLabel (l r : Nat) : String :=
  "enforce " ++ toString l ++ " * " ++ toString r

/-- Label of `enforce_u16_div` built from the unwrapped witness values. -/
def u16DivLabel (l r : Nat) : String :=
  "enforce " ++ toString l ++ " / " ++ toString r

/-- Label of `enforce_u16_pow` built from the unwrapped witness values. -/
def u16PowLabel (l r : Nat) : String :=
  "enforce " ++ toString l ++ " ** " ++ toString r

-- Value-level semantics of the gadget capabilities the enforce functions
-- delegate to.  These gadgets live in the external `snarkos_models`
-- collaborator, so they are modelled from the spec.

/-- Modelled from the spec: `UInt16::addmany` follows the width's unsigned
wraparound arithmetic (16 bits). -/
def u16AddValue (l r : Nat) : Nat := (l + r) % 65536

/-- Modelled from the spec: `UInt16::sub` follows the width's unsigned
wraparound arithmetic (adding the two's complement of the subtrahend). -/
def u16SubValue (l r : Nat) : Nat := (l + (65536 - r % 65536)) % 65536

/-- Modelled from the spec: `UInt16::mul` follows the width's unsigned
wraparound arithmetic. -/
def u16MulValue (l r : Nat) : Nat := (l * r) % 65536

/-- Modelled from the spec: `UInt16::pow` follows the width's unsigned
wraparound arithmetic. -/
def u16PowValue (l r : Nat) : Nat := (l ^ r) % 65536

/-- Modelled from the spec: `UInt16::div` performs unsigned integer
division; "division by zero is a synthesis-time failure, not a panic". -/
def u16DivValue (l r : Nat) : Except SynthesisError Nat :=
  if r = 0 then Except.error SynthesisError.divisionByZero
  else Except.ok (l / r)

/-- Satisfaction of the equality constraint emitted by `enforce_u16_eq`.
Modelled from the spec: `Equal(left, right)` enforces left = right as a
constraint on the witnessed values. -/
def u16EqConstraintSatisfied (left right : UInt16) : Bool :=
  left.value == right.value

/-- `enforce_u16_eq`: opens the constant namespace label and enforces the
equality gadget; no operand witness value is unwrapped, so the label never
depends on (nor fails for) the operands. -/
def enforceU16Eq (left right : UInt16) : String × Except IntegerError Unit :=
  (u16EqLabel, Except.ok ())

/-- `enforce_u16_add`: builds the namespace label from
`left.value.unwrap()` and `right.value.unwrap()` (an absent witness value
makes the unwrap panic, modelled as the outer `none`), then enforces the
`addmany` gadget on the operands. -/
def enforceU16Add (left right : UInt16) :
    Option (String × Except IntegerError UInt16) :=
  match left.value, right.value with
  | some l, some r => some (u16AddLabel l r, Except.ok ⟨some (u16AddValue l r)⟩)
  | _, _ => none

/-- `enforce_u16_sub`: label from the unwrapped witness values, then the
`sub` gadget. -/
def enforceU16Sub (left right : UInt16) :
    Option (String × Except IntegerError UInt16) :=
  match left.value, right.value with
  | some l, some r => some (u16SubLabel l r, Except.ok ⟨some (u16SubValue l r)⟩)
  | _, _ => none

/-- `enforce_u16_mul`: label from the unwrapped witness values, then the
`mul` gadget. -/
def enforceU16Mul (left right : UInt16) :
    Option (String × Except IntegerError UInt16) :=
  match left.value, right.value with
  | some l, some r => some (u16MulLabel l r, Except.ok ⟨some (u16MulValue l r)⟩)
  | _, _ => none

/-- `enforce_u16_div`: label from the unwrapped witness values, then the
`div` gadget; a gadget error is propagated (with `?`) as a typed
`IntegerError`, never as a panic. -/
def enforceU16Div (left right : UInt16) :
    Option (String × Except IntegerError UInt16) :=
  match left.value, right.value with
  | some l, some r =>
      some (u16DivLabel l r,
        match u16DivValue l r with
        | Except.ok v => Except.ok ⟨some v⟩
        | Except.error e => Except.error (IntegerError.synthesisError e))
  | _, _ => none

/-- `enforce_u16_pow`: label from the unwrapped witness values, then the
`pow` gadget. -/
def enforceU16Pow (left right : UInt16) :
    Option (String × Except IntegerError UInt16) :=
  match left.value, right.value with
  | some l, some r => some (u16PowLabel l r, Except.ok ⟨some (u16PowValue l r)⟩)
  | _, _ => none

-- ----------------------------------------------------------------------
-- u16_from_input and its surrounding data model.
-- ----------------------------------------------------------------------

/-- Modelled from the spec: the variable of an input parameter, carrying
the parameter's name. -/
structure Variable where
  name : String
deriving DecidableEq, Repr

/-- Modelled from the spec: the Input Parameter Model — "a name, a declared
type, and a visibility flag (`private` or `public`)".  The source fields
`private` and `variable` are Lean keywords, hence the escaped names. -/
structure InputModel where
  «private» : Bool
  «variable» : Variable
deriving DecidableEq, Repr

/-- Visibility of an allocated value in the constraint system. -/
inductive Visibility where
  | privateWitness
  | publicInput
deriving DecidableEq, Repr

/-- Record of one allocation performed against the constraint system:
the namespace (the parameter name passed to `cs.ns(|| name)`), the
chosen visibility, and the (optional) witness value. -/
structure Allocation where
  name : String
  visibility : Visibility
  value : Option Nat
deriving DecidableEq, Repr

/-- Modelled from the spec: the "allocate private witness" capability
(`UInt16::alloc`); allocation "still succeeds structurally" when the
concrete value is absent, deferring failure to constraint-satisfaction
time. -/
def u16Alloc (name : String) (value : Option Nat) : UInt16 × Allocation :=
  (⟨value⟩, ⟨name, Visibility.privateWitness, value⟩)

/-- Modelled from the spec: the "allocate public input" capability
(`UInt16::alloc_input`). -/
def u16AllocInput (name : String) (value : Option Nat) : UInt16 × Allocation :=
  (⟨value⟩, ⟨name, Visibility.publicInput, value⟩)

/-- Gadget integer of width 8 (see `UInt16`). -/
structure UInt8 where
  value : Option Nat
deriving DecidableEq, Repr

/-- Gadget integer of width 32 (see `UInt16`). -/
structure UInt32 where
  value : Option Nat
deriving DecidableEq, Repr

/-- Gadget integer of width 64 (see `UInt16`). -/
structure UInt64 where
  value : Option Nat
deriving DecidableEq, Repr

/-- Gadget integer of width 128 (see `UInt16`). -/
structure UInt128 where
  value : Option Nat
deriving DecidableEq, Repr

/-- Modelled from the spec: the compiler's `Integer` value, "tagged by
width: 8/16/32/64/128 bits", each variant wrapping the gadget of that
width. -/
inductive Integer where
  | U8 (g : UInt8)
  | U16 (g : UInt16)
  | U32 (g : UInt32)
  | U64 (g : UInt64)
  | U128 (g : UInt128)
deriving DecidableEq, Repr

/-- Modelled from the spec: the Value Model (`ConstrainedValue`), the
tagged union of every kind of runtime value flowing through constraint
synthesis.  Only the variants reachable from the inspected slice are
spelled out. -/
inductive ConstrainedValue where
  | Integer (i : Integer)
  | FieldElement (f : String)
  | GroupElement (g : String)
  | Boolean (value : Option Bool)
  | Array (values : List ConstrainedValue)

/-- `u16_from_input`: casts the optional raw value to 16 bits (`as u16`,
a silent truncation), then allocates privately or publicly according to
`parameter_model.private` under the namespace of the parameter's variable
name, returning the constrained integer value.  The performed allocation
is returned alongside so that its visibility and name are observable. -/
def u16FromInput (parameterModel : InputModel) (integerOption : Option Nat) :
    Except IntegerError (ConstrainedValue × Allocation) :=
  let u16Option := integerOption.map (fun integer => integer % 65536)
  let name := parameterModel.«variable».name
  let pair :=
    if parameterModel.«private» then u16Alloc name u16Option
    else u16AllocInput name u16Option
  Except.ok (ConstrainedValue.Integer (Integer.U16 pair.1), pair.2)

end Leo.Compiler

-- ----------------------------------------------------------------------
-- Helper lemmas about the label strings.
-- ----------------------------------------------------------------------

/-- Two strings that differ only in an unequal middle chunk are unequal. -/
theorem Leo.Compiler.append_mid_ne (x y m1 m2 : String) (h : m1 ≠ m2) :
    x ++ m1 ++ y ≠ x ++ m2 ++ y := by
  intro he
  apply h
  have hd : (x ++ m1 ++ y).data = (x ++ m2 ++ y).data := congrArg String.data he
  simp only [String.data_append, List.append_assoc] at hd
  have h1 := List.append_cancel_left hd
  have h2 := List.append_cancel_right h1
  exact String.ext h2

namespace Leo.Compiler

-- ----------------------------------------------------------------------
-- C2: label construction on unassigned operands.
-- ----------------------------------------------------------------------

/-- C2 counterexample: for each uint16 arithmetic enforce operation, an
operand whose witness value is unassigned makes label construction (the
`unwrap` of the operand value) panic — modelled as `none` — instead of
falling back to a placeholder token. -/
theorem u16_label_unassigned_panics :
    enforceU16Add ⟨none⟩ ⟨some 3⟩ = none ∧
    enforceU16Sub ⟨some 1⟩ ⟨none⟩ = none ∧
    enforceU16Mul ⟨none⟩ ⟨none⟩ = none ∧
    enforceU16Div ⟨none⟩ ⟨some 1⟩ = none ∧
    enforceU16Pow ⟨none⟩ ⟨some 2⟩ = none :=
  ⟨rfl, rfl, rfl, rfl, rfl⟩

/-- C2 (amended): for every uint16 gadget arithmetic operation, the
operation (whose first step is constructing the namespace label from the
unwrapped operand values) succeeds exactly when both operand witness
values are assigned; an unassigned operand makes the unwrap panic — there
is no placeholder fallback. -/
theorem u16_label_requires_assigned (left right : Leo.Compiler.UInt16) :
    ((enforceU16Add left right).isSome
        = (left.value.isSome && right.value.isSome)) ∧
    ((enforceU16Sub left right).isSome
        = (left.value.isSome && right.value.isSome)) ∧
    ((enforceU16Mul left right).isSome
        = (left.value.isSome && right.value.isSome)) ∧
    ((enforceU16Div left right).isSome
        = (left.value.isSome && right.value.isSome)) ∧
    ((enforceU16Pow left right).isSome
        = (left.value.isSome && right.value.isSome)) := by
  obtain ⟨lv⟩ := left
  obtain ⟨rv⟩ := right
  cases lv <;> cases rv <;>
    simp [enforceU16Add, enforceU16Sub, enforceU16Mul, enforceU16Div,
      enforceU16Pow]

-- ----------------------------------------------------------------------
-- C3: namespace label collisions within a scope.
-- ----------------------------------------------------------------------

/-- C3 counterexample: two distinct invocations of `enforce_u16_eq` (on
different operand pairs) in the same scope produce the same namespace
label, the constant string "enforce u16 equal". -/
theorem u16_eq_label_collision :
    ((⟨some 1⟩ : Leo.Compiler.UInt16), (⟨some 2⟩ : Leo.Compiler.UInt16))
        ≠ ((⟨some 3⟩ : Leo.Compiler.UInt16), (⟨some 4⟩ : Leo.Compiler.UInt16)) ∧
    (enforceU16Eq ⟨some 1⟩ ⟨some 2⟩).1 = (enforceU16Eq ⟨some 3⟩ ⟨some 4⟩).1 :=
  ⟨by decide, rfl⟩

/-- C3 (amended): namespace labels identify only the operation and the
witnessed operand values, not the invocation: every `enforce_u16_eq`
invocation gets the one constant label (so any two such invocations in a
scope collide), while the five arithmetic operations do get pairwise
distinct labels at equal witnessed operand values. -/
theorem u16_labels_identify_operation_only (l r : Nat) :
    (∀ a b : Leo.Compiler.UInt16, (enforceU16Eq a b).1 = u16EqLabel) ∧
    u16AddLabel l r ≠ u16SubLabel l r ∧
    u16AddLabel l r ≠ u16MulLabel l r ∧
    u16AddLabel l r ≠ u16DivLabel l r ∧
    u16AddLabel l r ≠ u16PowLabel l r ∧
    u16SubLabel l r ≠ u16MulLabel l r ∧
    u16SubLabel l r ≠ u16DivLabel l r ∧
    u16SubLabel l r ≠ u16PowLabel l r ∧
    u16MulLabel l r ≠ u16DivLabel l r ∧
    u16MulLabel l r ≠ u16PowLabel l r ∧
    u16DivLabel l r ≠ u16PowLabel l r := by
  refine ⟨fun a b => rfl, ?_, ?_, ?_, ?_, ?_, ?_, ?_, ?_, ?_, ?_⟩ <;>
    exact append_mid_ne ("enforce " ++ toString l) (toString r) _ _
      (by decide)

-- ----------------------------------------------------------------------
-- C6: input allocation visibility.
-- ----------------------------------------------------------------------

/-- C6: `u16_from_input` allocates the 16-bit integer as a private witness
exactly when `parameter_model.private` is true and as a public input
exactly when it is false; in both cases the allocation is performed under
the parameter's variable name and the function returns
`ConstrainedValue::Integer(Integer::U16(..))` carrying the (truncated)
optional raw value. -/
theorem u16_from_input_visibility (pm : InputModel) (opt : Option Nat) :
    (pm.«private» = true →
      u16FromInput pm opt =
        Except.ok
          (ConstrainedValue.Integer
              (Integer.U16 ⟨opt.map (fun i => i % 65536)⟩),
            ⟨pm.«variable».name, Visibility.privateWitness,
              opt.map (fun i => i % 65536)⟩)) ∧
    (pm.«private» = false →
      u16FromInput pm opt =
        Except.ok
          (ConstrainedValue.Integer
              (Integer.U16 ⟨opt.map (fun i => i % 65536)⟩),
            ⟨pm.«variable».name, Visibility.publicInput,
              opt.map (fun i => i % 65536)⟩)) := by
  constructor <;> intro h <;>
    simp [u16FromInput, u16Alloc, u16AllocInput, h]

/-- C6 witness: a private parameter named "x" with raw value 70000 is
allocated as a private witness named "x" with the silently truncated
16-bit value 4464; a public parameter with no raw value is allocated as a
public input with an unassigned witness. -/
theorem u16_from_input_visibility_witness :
    u16FromInput ⟨true, ⟨"x"⟩⟩ (some 70000) =
      Except.ok
        (ConstrainedValue.Integer (Integer.U16 ⟨some 4464⟩),
          ⟨"x", Visibility.privateWitness, some 4464⟩) ∧
    u16FromInput ⟨false, ⟨"x"⟩⟩ none =
      Except.ok
        (ConstrainedValue.Integer (Integer.U16 ⟨none⟩),
          ⟨"x", Visibility.publicInput, none⟩) := by
  constructor
  · have h := (u16_from_input_visibility ⟨true, ⟨"x"⟩⟩ (some 70000)).1 rfl
    simpa using h
  · have h := (u16_from_input_visibility ⟨false, ⟨"x"⟩⟩ none).2 rfl
    simpa using h

-- ----------------------------------------------------------------------
-- C7: (a + b) - b = a under the emitted constraints.
-- ----------------------------------------------------------------------

/-- C7: for all assigned 16-bit operands a and b, `enforce_u16_add(a, b)`
followed by `enforce_u16_sub` of the result and b succeeds and yields a
value whose enforced equality with a is satisfied: (a + b) - b = a in
16-bit unsigned arithmetic. -/
theorem u16_add_sub_roundtrip (a b : Nat) (ha : a < 65536) (hb : b < 65536) :
    ∃ (sum diff : Leo.Compiler.UInt16) (labAdd labSub : String),
      enforceU16Add ⟨some a⟩ ⟨some b⟩ = some (labAdd, Except.ok sum) ∧
      enforceU16Sub sum ⟨some b⟩ = some (labSub, Except.ok diff) ∧
      u16EqConstraintSatisfied diff ⟨some a⟩ = true ∧
      diff.value = some a := by
  refine ⟨⟨some (u16AddValue a b)⟩,
    ⟨some (u16SubValue (u16AddValue a b) b)⟩,
    u16AddLabel a b, u16SubLabel (u16AddValue a b) b, rfl, rfl, ?_, ?_⟩ <;>
  · simp only [u16EqConstraintSatisfied, u16SubValue, u16AddValue]
    simp only [beq_iff_eq, Option.some.injEq]
    omega

/-- C7 witness: at a = 65535 and b = 7, the add wraps to 6 and the
subtraction wraps back to 65535, satisfying the enforced equality. -/
theorem u16_add_sub_roundtrip_witness :
    (65535 < 65536 ∧ 7 < 65536) ∧
    ∃ (sum diff : Leo.Compiler.UInt16) (labAdd labSub : String),
      enforceU16Add ⟨some 65535⟩ ⟨some 7⟩ = some (labAdd, Except.ok sum) ∧
      enforceU16Sub sum ⟨some 7⟩ = some (labSub, Except.ok diff) ∧
      u16EqConstraintSatisfied diff ⟨some 65535⟩ = true ∧
      diff.value = some 65535 :=
  ⟨⟨by decide, by decide⟩,
    u16_add_sub_roundtrip 65535 7 (by decide) (by decide)⟩

-- ----------------------------------------------------------------------
-- C8: division by zero.
-- ----------------------------------------------------------------------

/-- C8: for every assigned left operand, `enforce_u16_div` against an
assigned zero right operand completes (no panic: the label is built from
the assigned values) and returns a typed synthesis error for the division
by zero, not a wrapped-around value. -/
theorem u16_div_by_zero_errors (a : Nat) :
    enforceU16Div ⟨some a⟩ ⟨some 0⟩ =
      some (u16DivLabel a 0,
        Except.error
          (IntegerError.synthesisError SynthesisError.divisionByZero)) := by
  simp [enforceU16Div, u16DivValue]

end Leo.Compiler

-- ======================================================================
-- package/src/outputs/verification_key.rs
-- ======================================================================

namespace Leo.Package

/-- A filesystem path, as its ordered list of components. -/
abbrev Path := List String

/-- Modelled from the spec: the filesystem as the package collaborator
sees it — which paths currently exist as directories and which as plain
files.  Persistence primitives themselves are external collaborators. -/
structure Fs where
  dirs : List Path
  files : List Path
deriving DecidableEq, Repr

/-- Modelled from the spec: the outputs directory name constant of the
outputs module (its defining file is not part of the inspected slice). -/
def OUTPUTS_DIRECTORY_NAME : String := "outputs"

/-- The verification key file extension, `".lvk"`. -/
def VERIFICATION_KEY_FILE_EXTENSION : String := ".lvk"

/-- The verification key file of a package. -/
structure VerificationKeyFile where
  package_name : String
deriving DecidableEq, Repr

/-- Whether the path exists as a directory (`Path::is_dir`). -/
def Fs.isDir (fs : Fs) (p : Path) : Bool := fs.dirs.contains p

/-- Whether the path exists at all (`Path::exists`). -/
def Fs.pathExists (fs : Fs) (p : Path) : Bool :=
  fs.dirs.contains p || fs.files.contains p

/-- `Path::ends_with` for a single-component child. -/
def Path.endsWith (p : Path) (s : String) : Bool := p.getLast? == some s

/-- `Path::push` of one component. -/
def Path.push (p : Path) (s : String) : Path := p ++ [s]

/-- Modelled from the spec: the package error kinds raised by the
verification key file operations (the errors crate is not part of the
inspected slice). -/
inductive PackageError where
  | failedToRemoveVerificationKeyFile (p : Path)
  | failedToReadVerificationKeyFile (p : Path)
  | ioErrorVerificationKeyFile
deriving DecidableEq, Repr

/-- The top-level Leo error wrapping a package error. -/
inductive LeoError where
  | packageError (e : PackageError)
deriving DecidableEq, Repr

/-- `setup_file_path`: when the given path is a directory, push the
outputs directory name (unless the path already ends with it) and then
the file name `{package_name}{.lvk}`; otherwise return the path as is. -/
def VerificationKeyFile.setup_file_path (self : VerificationKeyFile)
    (fs : Fs) (path : Path) : Path :=
  if fs.isDir path then
    let p1 :=
      if !(Path.endsWith path OUTPUTS_DIRECTORY_NAME) then
        Path.push path OUTPUTS_DIRECTORY_NAME
      else path
    Path.push p1 (self.package_name ++ VERIFICATION_KEY_FILE_EXTENSION)
  else path

/-- `VerificationKeyFile::remove`, with the filesystem threaded as an
explicit state and the outcome of the external `fs::remove_file`
primitive supplied as the oracle `removeFileOk`.  Returns the function's
result, the filesystem afterwards, and whether `fs::remove_file` was
invoked at all. -/
def VerificationKeyFile.remove (self : VerificationKeyFile) (fs : Fs)
    (removeFileOk : Bool) (path : Path) :
    (Except LeoError Bool) × Fs × Bool :=
  let p := self.setup_file_path fs path
  if !(fs.pathExists p) then (Except.ok false, fs, false)
  else if removeFileOk then
    (Except.ok true, ⟨fs.dirs, fs.files.erase p⟩, true)
  else
    (Except.error
        (LeoError.packageError
          (PackageError.failedToRemoveVerificationKeyFile p)),
      fs, true)

/-- C10: `VerificationKeyFile::remove` returns Ok(false) without invoking
the filesystem removal (and leaves the filesystem untouched) when the
resolved verification-key path does not exist; returns Ok(true) with the
file removed when it exists and removal succeeds; and returns Err when it
exists but removal fails. -/
theorem remove_cases (vk : VerificationKeyFile) (fs : Fs) (ok : Bool)
    (path : Path) :
    (fs.pathExists (vk.setup_file_path fs path) = false →
      vk.remove fs ok path = (Except.ok false, fs, false)) ∧
    (fs.pathExists (vk.setup_file_path fs path) = true → ok = true →
      vk.remove fs ok path =
        (Except.ok true,
          ⟨fs.dirs, fs.files.erase (vk.setup_file_path fs path)⟩, true)) ∧
    (fs.pathExists (vk.setup_file_path fs path) = true → ok = false →
      vk.remove fs ok path =
        (Except.error
            (LeoError.packageError
              (PackageError.failedToRemoveVerificationKeyFile
                (vk.setup_file_path fs path))),
          fs, true)) := by
  refine ⟨fun h => ?_, fun h hok => ?_, fun h hok => ?_⟩
  · simp [VerificationKeyFile.remove, h]
  · simp [VerificationKeyFile.remove, h, hok]
  · simp [VerificationKeyFile.remove, h, hok]

/-- C10 witness: in a filesystem where the project directory exists, the
resolved path `proj/outputs/pkg.lvk` behaves as claimed in all three
cases (absent file, successful removal, failing removal). -/
theorem remove_cases_witness :
    (VerificationKeyFile.remove ⟨"pkg"⟩ ⟨[["proj"]], []⟩ true ["proj"] =
      (Except.ok false, ⟨[["proj"]], []⟩, false)) ∧
    (VerificationKeyFile.remove ⟨"pkg"⟩
        ⟨[["proj"]], [["proj", "outputs", "pkg.lvk"]]⟩ true ["proj"] =
      (Except.ok true, ⟨[["proj"]], []⟩, true)) ∧
    (VerificationKeyFile.remove ⟨"pkg"⟩
        ⟨[["proj"]], [["proj", "outputs", "pkg.lvk"]]⟩ false ["proj"] =
      (Except.error
          (LeoError.packageError
            (PackageError.failedToRemoveVerificationKeyFile
              ["proj", "outputs", "pkg.lvk"])),
        ⟨[["proj"]], [["proj", "outputs", "pkg.lvk"]]⟩, true)) := by
  refine ⟨?_, ?_, ?_⟩
  · have h := (remove_cases ⟨"pkg"⟩ ⟨[["proj"]], []⟩ true ["proj"]).1
      (by decide)
    simpa using h
  · have h := (remove_cases ⟨"pkg"⟩
        ⟨[["proj"]], [["proj", "outputs", "pkg.lvk"]]⟩ true ["proj"]).2.1
      (by decide) rfl
    simpa using h
  · have h := (remove_cases ⟨"pkg"⟩
        ⟨[["proj"]], [["proj", "outputs", "pkg.lvk"]]⟩ false ["proj"]).2.2
      (by decide) rfl
    simpa using h

end Leo.Package

-- ======================================================================
-- types/src/expression.rs: the expression IR and its lowering from the
-- parse tree.
-- ======================================================================

namespace Leo.Types

/-- Source-position tag (`Span`), preserved through lowering; its precise
fields are irrelevant to the claims, a line/column pair suffices. -/
structure Span where
  line : Nat
  col : Nat
deriving DecidableEq, Repr

/-- An identifier.  The parse-tree identifier and the IR identifier both
carry the name, and the `From` conversion between them preserves it, so a
single type serves for both. -/
structure Identifier where
  name : String
  span : Span
deriving DecidableEq, Repr

/-- A literal number token (`NumberValue`), kept as its spelling. -/
structure NumberValue where
  value : String
deriving DecidableEq, Repr

/-- The concrete integer bit widths of the language. -/
inductive IntegerType where
  | u8Type
  | u16Type
  | u32Type
  | u64Type
  | u128Type
deriving DecidableEq, Repr

/-- A typed integer literal of the parse tree (`IntegerValue`). -/
structure IntegerValue where
  number : NumberValue
  type : IntegerType
deriving DecidableEq, Repr

/-- A field-element literal of the parse tree (`FieldValue`). -/
structure FieldValue where
  number : NumberValue
deriving DecidableEq, Repr

/-- A group-element literal of the parse tree (`GroupValue`); lowering
stores its `to_string` rendering, so the rendering is what is kept. -/
structure GroupValue where
  rendered : String
deriving DecidableEq, Repr

/-- A boolean literal of the parse tree (`BooleanValue`), as spelled. -/
structure BooleanValue where
  value : String
deriving DecidableEq, Repr

/-- An untyped ("implicit") numeric literal (`NumberImplicitValue`). -/
structure NumberImplicitValue where
  number : NumberValue
deriving DecidableEq, Repr

/-- The parse-tree `Value` union, per the `From<Value>` impl: integer,
field, group, boolean or implicit literal. -/
inductive AstValue where
  | integer (v : IntegerValue)
  | field (v : FieldValue)
  | group (v : GroupValue)
  | boolean (v : BooleanValue)
  | implicit (v : NumberImplicitValue)
deriving DecidableEq, Repr

/-- The binary operator tokens of the parse tree (`BinaryOperation`). -/
inductive BinaryOperation where
  | or
  | and
  | eq
  | ne
  | ge
  | gt
  | le
  | lt
  | add
  | sub
  | mul
  | div
  | pow
deriving DecidableEq, Repr

/-- A member or static-member access of a postfix chain, carrying the
accessed identifier. -/
structure ObjectAccess where
  identifier : Identifier
  span : Span
deriving DecidableEq, Repr

-- The parse-tree expression forms consumed by the lowering impls of
-- types/src/expression.rs.  The leo_ast definitions are not part of the
-- inspected slice; the shapes below are modelled from the spec and from
-- the fields the lowering code reads.

mutual

/-- A parse-tree expression (`leo_ast::expressions::Expression`). -/
inductive AstExpression where
  | value (v : AstValue)
  | identifier (i : Identifier)
  | notExpr (e : NotExpression)
  | binary (e : BinaryExpression)
  | ternary (e : TernaryExpression)
  | arrayInline (e : ArrayInlineExpression)
  | arrayInitializer (e : ArrayInitializerExpression)
  | circuitInline (e : CircuitInlineExpression)
  | postfixExpr (e : PostfixExpression)

/-- A logical-negation parse-tree expression. -/
inductive NotExpression where
  | mk (expression : AstExpression) (span : Span)

/-- A binary parse-tree expression: operator, operands, span. -/
inductive BinaryExpression where
  | mk (operation : BinaryOperation) (left : AstExpression)
      (right : AstExpression) (span : Span)

/-- A ternary conditional parse-tree expression. -/
inductive TernaryExpression where
  | mk (first : AstExpression) (second : AstExpression)
      (third : AstExpression) (span : Span)

/-- An inline array parse-tree expression, a sequence of
element-or-spread entries. -/
inductive ArrayInlineExpression where
  | mk (expressions : List AstSpreadOrExpression) (span : Span)

/-- An array-initializer shorthand `[expression; count]`. -/
inductive ArrayInitializerExpression where
  | mk (expression : AstSpreadOrExpression) (count : AstValue) (span : Span)

/-- An inline record ("circuit") literal: name and member initializers. -/
inductive CircuitInlineExpression where
  | mk (identifier : Identifier) (members : List AstCircuitField)
      (span : Span)

/-- A postfix chain: a base identifier and its ordered accesses. -/
inductive PostfixExpression where
  | mk (identifier : Identifier) (accesses : List Access) (span : Span)

/-- An element-or-spread entry of a parse-tree array. -/
inductive AstSpreadOrExpression where
  | spread (e : AstExpression) (span : Span)
  | expression (e : AstExpression)

/-- One member initializer of a parse-tree record literal. -/
inductive AstCircuitField where
  | mk (identifier : Identifier) (expression : AstExpression)

/-- One access of a postfix chain: array index, call, member, or static
member. -/
inductive Access where
  | array (a : ArrayAccessExpr)
  | call (c : CallAccess)
  | object (o : ObjectAccess)
  | staticObject (o : ObjectAccess)

/-- The bracketed part of an array access. -/
inductive ArrayAccessExpr where
  | mk (expression : AstRangeOrExpression) (span : Span)

/-- The argument list of a call access. -/
inductive CallAccess where
  | mk (expressions : List AstExpression) (span : Span)

/-- A parse-tree index position: a range with optional bounds, or a
single expression. -/
inductive AstRangeOrExpression where
  | range (lo : Option NumberValue) (hi : Option NumberValue) (span : Span)
  | expression (e : AstExpression)

end

-- ----------------------------------------------------------------------
-- The expression IR.
-- ----------------------------------------------------------------------

/-- The boolean gadget wrapped by a Boolean expression leaf.  Modelled
from the spec: a boolean value is simultaneously a (possibly absent)
concrete witness and its allocation constraints; `get_value` reads the
optional witness. -/
inductive Boolean where
  | constant (b : Bool)
  | allocated (value : Option Bool)
deriving DecidableEq, Repr

/-- `Boolean::get_value`: the optional concrete witness of the gadget. -/
def Boolean.get_value : Boolean → Option Bool
  | .constant b => some b
  | .allocated v => v

/-- Modelled from the spec: the IR integer literal, "tagged with a
concrete bit width", kept with its lossless textual value. -/
structure Integer where
  type : IntegerType
  value : String
deriving DecidableEq, Repr

mutual

/-- The typed expression IR (`Expression` of types/src/expression.rs),
variant for variant. -/
inductive Expression where
  | Identifier (i : Identifier)
  | Integer (i : Integer)
  | Field (f : String)
  | Group (g : String)
  | Boolean (b : Boolean)
  | Implicit (v : String)
  | Add (left : Expression) (right : Expression) (span : Span)
  | Sub (left : Expression) (right : Expression) (span : Span)
  | Mul (left : Expression) (right : Expression) (span : Span)
  | Div (left : Expression) (right : Expression) (span : Span)
  | Pow (left : Expression) (right : Expression) (span : Span)
  | Not (e : Expression)
  | Or (left : Expression) (right : Expression) (span : Span)
  | And (left : Expression) (right : Expression) (span : Span)
  | Eq (left : Expression) (right : Expression) (span : Span)
  | Ge (left : Expression) (right : Expression) (span : Span)
  | Gt (left : Expression) (right : Expression) (span : Span)
  | Le (left : Expression) (right : Expression) (span : Span)
  | Lt (left : Expression) (right : Expression) (span : Span)
  | IfElse (cond : Expression) (thenBranch : Expression)
      (elseBranch : Expression) (span : Span)
  | Array (elements : List SpreadOrExpression) (span : Span)
  | ArrayAccess (array : Expression) (index : RangeOrExpression)
      (span : Span)
  | Circuit (name : Identifier) (members : List CircuitFieldDefinition)
      (span : Span)
  | CircuitMemberAccess (circuit : Expression) (member : Identifier)
      (span : Span)
  | CircuitStaticFunctionAccess (circuit : Expression)
      (member : Identifier) (span : Span)
  | FunctionCall (function : Expression) (arguments : List Expression)
      (span : Span)

/-- An element-or-spread entry of an IR array literal. -/
inductive SpreadOrExpression where
  | Spread (e : Expression)
  | Expression (e : Expression)

/-- An IR index position: a range with optional literal bounds, or an
expression. -/
inductive RangeOrExpression where
  | Range (lo : Option String) (hi : Option String)
  | Expression (e : Expression)

/-- One member definition of an IR record literal. -/
inductive CircuitFieldDefinition where
  | mk (identifier : Identifier) (expression : Expression)

end

-- ----------------------------------------------------------------------
-- Lowering: the `From` impls of types/src/expression.rs.
--
-- The Rust lowering is general recursion (the not-equal arm of
-- `From<BinaryExpression>` recurses on its unchanged argument), so it is
-- embedded with a fuel bound: `fuel` is left untouched on every
-- structurally decreasing call and spent only on that one
-- non-structural self-call.  A panic (`expect`/`unimplemented!`) and
-- fuel exhaustion are both modelled as `none`; on non-panicking,
-- terminating inputs the result does not depend on the fuel.
-- ----------------------------------------------------------------------

/-- Every parse-tree expression has positive size (used for the
termination measure of the lowering). -/
theorem astExpression_sizeOf_pos (e : AstExpression) : 0 < sizeOf e := by
  cases e <;> simp_arith

/-- Rust's `str::parse::<bool>`: accepts exactly "true" and "false". -/
def parseBool (s : String) : Option Bool :=
  if s = "true" then some true
  else if s = "false" then some false
  else none

/-- `From<BooleanValue>`: parse the spelling, panicking (`expect`) on
anything but "true"/"false", and wrap the constant boolean gadget. -/
def lowerBooleanValue (b : BooleanValue) : Option Expression :=
  (parseBool b.value).map (fun v => Expression.Boolean (Boolean.constant v))

/-- `From<Value>`: dispatch a parse-tree literal to the matching IR
leaf. -/
def lowerValue : AstValue → Option Expression
  | .integer v => some (Expression.Integer ⟨v.type, v.number.value⟩)
  | .field v => some (Expression.Field v.number.value)
  | .group v => some (Expression.Group v.rendered)
  | .boolean v => lowerBooleanValue v
  | .implicit v => some (Expression.Implicit v.number.value)

/-- Rust's `str::parse::<usize>` on a decimal spelling: all characters
must be digits (the usize upper bound is not modelled). -/
def parseUsize (s : String) : Option Nat :=
  if s.data ≠ [] ∧ s.data.all Char.isDigit then
    some (s.data.foldl (fun n c => n * 10 + (c.toNat - 48)) 0)
  else none

/-- `Expression::get_count`: read an array length from an integer or
implicit literal; the `parse::<usize>().expect(..)` panic on an
unparsable spelling and the `unimplemented!` panic on any other value
kind are modelled as `none`. -/
def get_count (count : AstValue) : Option Nat :=
  match count with
  | .integer integer => parseUsize integer.number.value
  | .implicit number => parseUsize number.number.value
  | _ => none

mutual

/-- `From<AstExpression>`: dispatch a parse-tree expression to the
matching lowering. -/
def lowerAstExpression (fuel : Nat) : AstExpression → Option Expression
  | .value v => lowerValue v
  | .identifier i => some (Expression.Identifier i)
  | .notExpr e => lowerNotExpression fuel e
  | .binary e => lowerBinaryExpression fuel e
  | .ternary e => lowerTernaryExpression fuel e
  | .arrayInline e => lowerArrayInlineExpression fuel e
  | .arrayInitializer e => lowerArrayInitializerExpression fuel e
  | .circuitInline e => lowerCircuitInlineExpression fuel e
  | .postfixExpr e => lowerPostfixExpression fuel e
termination_by e => (fuel, sizeOf e)

/-- `From<NotExpression>`: wrap the lowered operand in `Not` (the span is
not kept, as in the source). -/
def lowerNotExpression (fuel : Nat) : NotExpression → Option Expression
  | .mk expression _span =>
      (lowerAstExpression fuel expression).map Expression.Not
termination_by e => (fuel, sizeOf e)

/-- Lower both operands of a binary expression, left before right. -/
def lowerBinaryParts (fuel : Nat) (left right : AstExpression) :
    Option (Expression × Expression) :=
  match lowerAstExpression fuel left, lowerAstExpression fuel right with
  | some l, some r => some (l, r)
  | _, _ => none
termination_by (fuel, sizeOf left + sizeOf right)
decreasing_by
  all_goals
    apply Prod.Lex.right
    have hl := astExpression_sizeOf_pos left
    have hr := astExpression_sizeOf_pos right
    omega

/-- `From<BinaryExpression>`: map each operator token to its IR variant.
The `Ne` arm of the source recurses on the unchanged expression
(`Expression::Not(Box::new(Expression::from(expression)))` with
`expression.operation` still `Ne`), which is where the fuel is spent. -/
def lowerBinaryExpression (fuel : Nat) : BinaryExpression → Option Expression
  | .mk operation left right span =>
      match operation with
      | .or => (lowerBinaryParts fuel left right).map
          (fun p => Expression.Or p.1 p.2 span)
      | .and => (lowerBinaryParts fuel left right).map
          (fun p => Expression.And p.1 p.2 span)
      | .eq => (lowerBinaryParts fuel left right).map
          (fun p => Expression.Eq p.1 p.2 span)
      | .ne =>
          match fuel with
          | 0 => none
          | n + 1 =>
              (lowerBinaryExpression n (.mk .ne left right span)).map
                Expression.Not
      | .ge => (lowerBinaryParts fuel left right).map
          (fun p => Expression.Ge p.1 p.2 span)
      | .gt => (lowerBinaryParts fuel left right).map
          (fun p => Expression.Gt p.1 p.2 span)
      | .le => (lowerBinaryParts fuel left right).map
          (fun p => Expression.Le p.1 p.2 span)
      | .lt => (lowerBinaryParts fuel left right).map
          (fun p => Expression.Lt p.1 p.2 span)
      | .add => (lowerBinaryParts fuel left right).map
          (fun p => Expression.Add p.1 p.2 span)
      | .sub => (lowerBinaryParts fuel left right).map
          (fun p => Expression.Sub p.1 p.2 span)
      | .mul => (lowerBinaryParts fuel left right).map
          (fun p => Expression.Mul p.1 p.2 span)
      | .div => (lowerBinaryParts fuel left right).map
          (fun p => Expression.Div p.1 p.2 span)
      | .pow => (lowerBinaryParts fuel left right).map
          (fun p => Expression.Pow p.1 p.2 span)
termination_by e => (fuel, sizeOf e)

/-- `From<TernaryExpression>`: lower the three operands into `IfElse`. -/
def lowerTernaryExpression (fuel : Nat) : TernaryExpression → Option Expression
  | .mk first second third span =>
      match lowerAstExpression fuel first, lowerAstExpression fuel second,
          lowerAstExpression fuel third with
      | some c, some t, some e => some (Expression.IfElse c t e span)
      | _, _, _ => none
termination_by e => (fuel, sizeOf e)

/-- `From<ArrayInlineExpression>`: lower every element-or-spread entry. -/
def lowerArrayInlineExpression (fuel : Nat) :
    ArrayInlineExpression → Option Expression
  | .mk expressions span =>
      (lowerSpreadOrExpressionList fuel expressions).map
        (fun es => Expression.Array es span)
termination_by e => (fuel, sizeOf e)

/-- `From<ArrayInitializerExpression>`: evaluate the count eagerly with
`get_count`, lower the element once, and clone it count times
(`vec![expression; count]`). -/
def lowerArrayInitializerExpression (fuel : Nat) :
    ArrayInitializerExpression → Option Expression
  | .mk expression count span =>
      match get_count count with
      | some n =>
          (lowerSpreadOrExpression fuel expression).map
            (fun e => Expression.Array (List.replicate n e) span)
      | none => none
termination_by e => (fuel, sizeOf e)

/-- `From<CircuitInlineExpression>`: lower every member initializer. -/
def lowerCircuitInlineExpression (fuel : Nat) :
    CircuitInlineExpression → Option Expression
  | .mk identifier members span =>
      (lowerCircuitFieldList fuel members).map
        (fun ms => Expression.Circuit identifier ms span)
termination_by e => (fuel, sizeOf e)

/-- `From<PostfixExpression>`: start from the base identifier and fold
the accesses over it, first access innermost. -/
def lowerPostfixExpression (fuel : Nat) : PostfixExpression → Option Expression
  | .mk identifier accesses _span =>
      lowerAccessChain fuel (Expression.Identifier identifier) accesses
termination_by e => (fuel, sizeOf e)

/-- The left fold of `From<PostfixExpression>` over the access list,
threading the accumulator. -/
def lowerAccessChain (fuel : Nat) (acc : Expression) :
    List Access → Option Expression
  | [] => some acc
  | a :: rest =>
      match lowerAccessStep fuel acc a with
      | some acc2 => lowerAccessChain fuel acc2 rest
      | none => none
termination_by l => (fuel, sizeOf l)

/-- One step of the fold of `From<PostfixExpression>`: wrap the
accumulator in the IR node of the access. -/
def lowerAccessStep (fuel : Nat) (acc : Expression) :
    Access → Option Expression
  | .array (.mk expression span) =>
      (lowerRangeOrExpression fuel expression).map
        (fun r => Expression.ArrayAccess acc r span)
  | .call (.mk expressions span) =>
      (lowerExpressionList fuel expressions).map
        (fun args => Expression.FunctionCall acc args span)
  | .object o =>
      some (Expression.CircuitMemberAccess acc o.identifier o.span)
  | .staticObject o =>
      some (Expression.CircuitStaticFunctionAccess acc o.identifier o.span)
termination_by a => (fuel, sizeOf a)

/-- Lower a list of argument expressions in order. -/
def lowerExpressionList (fuel : Nat) :
    List AstExpression → Option (List Expression)
  | [] => some []
  | e :: rest =>
      match lowerAstExpression fuel e, lowerExpressionList fuel rest with
      | some e2, some rest2 => some (e2 :: rest2)
      | _, _ => none
termination_by l => (fuel, sizeOf l)

/-- Lower a list of element-or-spread entries in order. -/
def lowerSpreadOrExpressionList (fuel : Nat) :
    List AstSpreadOrExpression → Option (List SpreadOrExpression)
  | [] => some []
  | e :: rest =>
      match lowerSpreadOrExpression fuel e,
          lowerSpreadOrExpressionList fuel rest with
      | some e2, some rest2 => some (e2 :: rest2)
      | _, _ => none
termination_by l => (fuel, sizeOf l)

/-- `From<SpreadOrExpression>` (its file is outside the inspected slice):
lower the wrapped expression, keeping the spread marker. -/
def lowerSpreadOrExpression (fuel : Nat) :
    AstSpreadOrExpression → Option SpreadOrExpression
  | .spread e _span =>
      (lowerAstExpression fuel e).map SpreadOrExpression.Spread
  | .expression e =>
      (lowerAstExpression fuel e).map SpreadOrExpression.Expression
termination_by e => (fuel, sizeOf e)

/-- Lower a list of member initializers in order. -/
def lowerCircuitFieldList (fuel : Nat) :
    List AstCircuitField → Option (List CircuitFieldDefinition)
  | [] => some []
  | m :: rest =>
      match lowerCircuitField fuel m, lowerCircuitFieldList fuel rest with
      | some m2, some rest2 => some (m2 :: rest2)
      | _, _ => none
termination_by l => (fuel, sizeOf l)

/-- `From<CircuitField>` (its file is outside the inspected slice): lower
the member's initializer expression, keeping its name. -/
def lowerCircuitField (fuel : Nat) :
    AstCircuitField → Option CircuitFieldDefinition
  | .mk identifier expression =>
      (lowerAstExpression fuel expression).map
        (fun e => CircuitFieldDefinition.mk identifier e)
termination_by e => (fuel, sizeOf e)

/-- `From<AstRangeOrExpression>` (its file is outside the inspected
slice): keep literal range bounds, lower an index expression. -/
def lowerRangeOrExpression (fuel : Nat) :
    AstRangeOrExpression → Option RangeOrExpression
  | .range lo hi _span =>
      some (RangeOrExpression.Range (lo.map NumberValue.value)
        (hi.map NumberValue.value))
  | .expression e =>
      (lowerAstExpression fuel e).map RangeOrExpression.Expression
termination_by e => (fuel, sizeOf e)

end

-- ----------------------------------------------------------------------
-- The Display impl of the IR (`impl fmt::Display for Expression`).
-- A panic while formatting (the `unwrap` of an unassigned boolean
-- witness) is modelled as `none`.
-- ----------------------------------------------------------------------

/-- Modelled from the spec: the Display of an IR integer literal is its
lossless textual value; no witness assignment is inspected. -/
def displayInteger (i : Integer) : String := i.value

/-- The comma-separated join performed by the Display loops. -/
def joinComma (ss : List String) : String := String.intercalate ", " ss

/-- Every IR expression has positive size (for the termination measure
of Display). -/
theorem expression_sizeOf_pos (e : Expression) : 0 < sizeOf e := by
  cases e <;> simp_arith

mutual

/-- `impl fmt::Display for Expression`, arm for arm; only the Boolean arm
reads a witness (`bool.get_value().unwrap()`): an unassigned gadget makes
it panic, modelled as `none`, and every other arm only delegates to the
sub-displays. -/
def displayExpression : Expression → Option String
  | .Identifier i => some i.name
  | .Integer i => some (displayInteger i)
  | .Field f => some f
  | .Group g => some g
  | .Boolean b =>
      (Boolean.get_value b).map (fun v => if v then "true" else "false")
  | .Implicit v => some v
  | .Add l r _ => displayBinary l r " + "
  | .Sub l r _ => displayBinary l r " - "
  | .Mul l r _ => displayBinary l r " * "
  | .Div l r _ => displayBinary l r " / "
  | .Pow l r _ => displayBinary l r " ** "
  | .Not e => (displayExpression e).map (fun s => "!" ++ s)
  | .Or l r _ => displayBinary l r " || "
  | .And l r _ => displayBinary l r " && "
  | .Eq l r _ => displayBinary l r " == "
  | .Ge l r _ => displayBinary l r " >= "
  | .Gt l r _ => displayBinary l r " > "
  | .Le l r _ => displayBinary l r " <= "
  | .Lt l r _ => displayBinary l r " < "
  | .IfElse c t e _ =>
      match displayExpression c, displayExpression t,
          displayExpression e with
      | some cs, some ts, some es =>
          some ("if " ++ cs ++ " then " ++ ts ++ " else " ++ es ++ " fi")
      | _, _, _ => none
  | .Array elements _ =>
      (displaySpreadOrExpressionList elements).map
        (fun ss => "[" ++ joinComma ss ++ "]")
  | .ArrayAccess a idx _ =>
      match displayExpression a, displayRangeOrExpression idx with
      | some sa, some si => some (sa ++ "[" ++ si ++ "]")
      | _, _ => none
  | .Circuit name members _ =>
      (displayMemberList members).map
        (fun ss => name.name ++ " \x7b" ++ joinComma ss ++ "\x7d")
  | .CircuitMemberAccess c m _ =>
      (displayExpression c).map (fun s => s ++ "." ++ m.name)
  | .CircuitStaticFunctionAccess c m _ =>
      (displayExpression c).map (fun s => s ++ "::" ++ m.name)
  | .FunctionCall f args _ =>
      match displayExpression f, displayExpressionStrings args with
      | some fs, some ss => some (fs ++ "(" ++ joinComma ss ++ ")")
      | _, _ => none
termination_by e => sizeOf e

/-- Format both operands of a binary arm around the operator text. -/
def displayBinary (l r : Expression) (mid : String) : Option String :=
  match displayExpression l, displayExpression r with
  | some ls, some rs => some (ls ++ mid ++ rs)
  | _, _ => none
termination_by sizeOf l + sizeOf r
decreasing_by
  all_goals
    have hl := expression_sizeOf_pos l
    have hr := expression_sizeOf_pos r
    omega

/-- Format a list of argument expressions in order. -/
def displayExpressionStrings : List Expression → Option (List String)
  | [] => some []
  | e :: rest =>
      match displayExpression e, displayExpressionStrings rest with
      | some s, some ss => some (s :: ss)
      | _, _ => none
termination_by l => sizeOf l

/-- Display of an element-or-spread entry (its impl is outside the
inspected slice): a spread renders with the spread ellipsis. -/
def displaySpreadOrExpression : SpreadOrExpression → Option String
  | .Spread e => (displayExpression e).map (fun s => "..." ++ s)
  | .Expression e => displayExpression e
termination_by s => sizeOf s

/-- Format a list of element-or-spread entries in order. -/
def displaySpreadOrExpressionList :
    List SpreadOrExpression → Option (List String)
  | [] => some []
  | e :: rest =>
      match displaySpreadOrExpression e,
          displaySpreadOrExpressionList rest with
      | some s, some ss => some (s :: ss)
      | _, _ => none
termination_by l => sizeOf l

/-- Display of an index position (its impl is outside the inspected
slice): literal range bounds render around "..", an index expression
renders itself. -/
def displayRangeOrExpression : RangeOrExpression → Option String
  | .Range lo hi => some ((lo.getD "") ++ ".." ++ (hi.getD ""))
  | .Expression e => displayExpression e
termination_by r => sizeOf r

/-- Format one record member as "name: expression". -/
def displayMember : CircuitFieldDefinition → Option String
  | .mk identifier expression =>
      (displayExpression expression).map
        (fun s => identifier.name ++ ": " ++ s)
termination_by m => sizeOf m

/-- Format a list of record members in order. -/
def displayMemberList : List CircuitFieldDefinition → Option (List String)
  | [] => some []
  | m :: rest =>
      match displayMember m, displayMemberList rest with
      | some s, some ss => some (s :: ss)
      | _, _ => none
termination_by l => sizeOf l

end

-- ----------------------------------------------------------------------
-- Which expressions contain a boolean gadget leaf with no assigned
-- witness value (the only witness inspection Display performs).
-- ----------------------------------------------------------------------

mutual

/-- Whether the expression contains a Boolean leaf whose gadget carries
no assigned value. -/
def hasUnassignedBool : Expression → Bool
  | .Identifier _ => false
  | .Integer _ => false
  | .Field _ => false
  | .Group _ => false
  | .Boolean b => (Boolean.get_value b).isNone
  | .Implicit _ => false
  | .Add l r _ => hasUnassignedBool l || hasUnassignedBool r
  | .Sub l r _ => hasUnassignedBool l || hasUnassignedBool r
  | .Mul l r _ => hasUnassignedBool l || hasUnassignedBool r
  | .Div l r _ => hasUnassignedBool l || hasUnassignedBool r
  | .Pow l r _ => hasUnassignedBool l || hasUnassignedBool r
  | .Not e => hasUnassignedBool e
  | .Or l r _ => hasUnassignedBool l || hasUnassignedBool r
  | .And l r _ => hasUnassignedBool l || hasUnassignedBool r
  | .Eq l r _ => hasUnassignedBool l || hasUnassignedBool r
  | .Ge l r _ => hasUnassignedBool l || hasUnassignedBool r
  | .Gt l r _ => hasUnassignedBool l || hasUnassignedBool r
  | .Le l r _ => hasUnassignedBool l || hasUnassignedBool r
  | .Lt l r _ => hasUnassignedBool l || hasUnassignedBool r
  | .IfElse c t e _ =>
      hasUnassignedBool c || (hasUnassignedBool t || hasUnassignedBool e)
  | .Array elements _ => hasUnassignedBoolSpreadList elements
  | .ArrayAccess a idx _ =>
      hasUnassignedBool a || hasUnassignedBoolRange idx
  | .Circuit _ members _ => hasUnassignedBoolMemberList members
  | .CircuitMemberAccess c _ _ => hasUnassignedBool c
  | .CircuitStaticFunctionAccess c _ _ => hasUnassignedBool c
  | .FunctionCall f args _ =>
      hasUnassignedBool f || hasUnassignedBoolList args
termination_by e => sizeOf e

/-- List version of `hasUnassignedBool`. -/
def hasUnassignedBoolList : List Expression → Bool
  | [] => false
  | e :: rest => hasUnassignedBool e || hasUnassignedBoolList rest
termination_by l => sizeOf l

/-- Element-or-spread version of `hasUnassignedBool`. -/
def hasUnassignedBoolSpread : SpreadOrExpression → Bool
  | .Spread e => hasUnassignedBool e
  | .Expression e => hasUnassignedBool e
termination_by s => sizeOf s

/-- List-of-entries version of `hasUnassignedBool`. -/
def hasUnassignedBoolSpreadList : List SpreadOrExpression → Bool
  | [] => false
  | e :: rest => hasUnassignedBoolSpread e || hasUnassignedBoolSpreadList rest
termination_by l => sizeOf l

/-- Index-position version of `hasUnassignedBool`. -/
def hasUnassignedBoolRange : RangeOrExpression → Bool
  | .Range _ _ => false
  | .Expression e => hasUnassignedBool e
termination_by r => sizeOf r

/-- Record-member version of `hasUnassignedBool`. -/
def hasUnassignedBoolMember : CircuitFieldDefinition → Bool
  | .mk _ e => hasUnassignedBool e
termination_by m => sizeOf m

/-- List-of-members version of `hasUnassignedBool`. -/
def hasUnassignedBoolMemberList : List CircuitFieldDefinition → Bool
  | [] => false
  | m :: rest => hasUnassignedBoolMember m || hasUnassignedBoolMemberList rest
termination_by l => sizeOf l

end

-- ----------------------------------------------------------------------
-- Display fails exactly on unassigned boolean leaves.
-- ----------------------------------------------------------------------

mutual

/-- Formatting an expression fails iff it contains a Boolean leaf whose
gadget carries no assigned value. -/
theorem displayExpression_isNone : ∀ e : Expression,
    (displayExpression e).isNone = hasUnassignedBool e
  | .Identifier i => by simp [displayExpression, hasUnassignedBool]
  | .Integer i => by simp [displayExpression, hasUnassignedBool]
  | .Field f => by simp [displayExpression, hasUnassignedBool]
  | .Group g => by simp [displayExpression, hasUnassignedBool]
  | .Boolean b => by
      simp only [displayExpression, hasUnassignedBool]
      cases Boolean.get_value b <;> simp
  | .Implicit v => by simp [displayExpression, hasUnassignedBool]
  | .Add l r s => by
      simp only [displayExpression, hasUnassignedBool]
      exact displayBinary_isNone l r " + "
  | .Sub l r s => by
      simp only [displayExpression, hasUnassignedBool]
      exact displayBinary_isNone l r " - "
  | .Mul l r s => by
      simp only [displayExpression, hasUnassignedBool]
      exact displayBinary_isNone l r " * "
  | .Div l r s => by
      simp only [displayExpression, hasUnassignedBool]
      exact displayBinary_isNone l r " / "
  | .Pow l r s => by
      simp only [displayExpression, hasUnassignedBool]
      exact displayBinary_isNone l r " ** "
  | .Not e => by
      have h := displayExpression_isNone e
      simp only [displayExpression, hasUnassignedBool]
      cases d : displayExpression e <;> simp_all
  | .Or l r s => by
      simp only [displayExpression, hasUnassignedBool]
      exact displayBinary_isNone l r " || "
  | .And l r s => by
      simp only [displayExpression, hasUnassignedBool]
      exact displayBinary_isNone l r " && "
  | .Eq l r s => by
      simp only [displayExpression, hasUnassignedBool]
      exact displayBinary_isNone l r " == "
  | .Ge l r s => by
      simp only [displayExpression, hasUnassignedBool]
      exact displayBinary_isNone l r " >= "
  | .Gt l r s => by
      simp only [displayExpression, hasUnassignedBool]
      exact displayBinary_isNone l r " > "
  | .Le l r s => by
      simp only [displayExpression, hasUnassignedBool]
      exact displayBinary_isNone l r " <= "
  | .Lt l r s => by
      simp only [displayExpression, hasUnassignedBool]
      exact displayBinary_isNone l r " < "
  | .IfElse c t e s => by
      have hc := displayExpression_isNone c
      have ht := displayExpression_isNone t
      have he := displayExpression_isNone e
      simp only [displayExpression, hasUnassignedBool]
      cases dc : displayExpression c <;> cases dt : displayExpression t <;>
        cases de : displayExpression e <;> simp_all
  | .Array elements s => by
      have h := displaySpreadOrExpressionList_isNone elements
      simp only [displayExpression, hasUnassignedBool]
      cases d : displaySpreadOrExpressionList elements <;> simp_all
  | .ArrayAccess a idx s => by
      have h1 := displayExpression_isNone a
      have h2 := displayRangeOrExpression_isNone idx
      simp only [displayExpression, hasUnassignedBool]
      cases d1 : displayExpression a <;>
        cases d2 : displayRangeOrExpression idx <;> simp_all
  | .Circuit name members s => by
      have h := displayMemberList_isNone members
      simp only [displayExpression, hasUnassignedBool]
      cases d : displayMemberList members <;> simp_all
  | .CircuitMemberAccess c m s => by
      have h := displayExpression_isNone c
      simp only [displayExpression, hasUnassignedBool]
      cases d : displayExpression c <;> simp_all
  | .CircuitStaticFunctionAccess c m s => by
      have h := displayExpression_isNone c
      simp only [displayExpression, hasUnassignedBool]
      cases d : displayExpression c <;> simp_all
  | .FunctionCall f args s => by
      have h1 := displayExpression_isNone f
      have h2 := displayExpressionStrings_isNone args
      simp only [displayExpression, hasUnassignedBool]
      cases d1 : displayExpression f <;>
        cases d2 : displayExpressionStrings args <;> simp_all
termination_by e => sizeOf e

/-- Binary arms fail iff one operand contains an unassigned boolean. -/
theorem displayBinary_isNone : ∀ (l r : Expression) (mid : String),
    (displayBinary l r mid).isNone
      = (hasUnassignedBool l || hasUnassignedBool r)
  | l, r, mid => by
      have hl := displayExpression_isNone l
      have hr := displayExpression_isNone r
      simp only [displayBinary]
      cases dl : displayExpression l <;> cases dr : displayExpression r <;>
        simp_all
termination_by l r mid => sizeOf l + sizeOf r
decreasing_by
  all_goals
    have hl := expression_sizeOf_pos l
    have hr := expression_sizeOf_pos r
    omega

/-- Argument lists fail iff one argument contains an unassigned
boolean. -/
theorem displayExpressionStrings_isNone : ∀ l : List Expression,
    (displayExpressionStrings l).isNone = hasUnassignedBoolList l
  | [] => by simp [displayExpressionStrings, hasUnassignedBoolList]
  | e :: rest => by
      have h1 := displayExpression_isNone e
      have h2 := displayExpressionStrings_isNone rest
      simp only [displayExpressionStrings, hasUnassignedBoolList]
      cases d1 : displayExpression e <;>
        cases d2 : displayExpressionStrings rest <;> simp_all
termination_by l => sizeOf l

/-- Element-or-spread entries fail iff the wrapped expression contains
an unassigned boolean. -/
theorem displaySpreadOrExpression_isNone : ∀ s : SpreadOrExpression,
    (displaySpreadOrExpression s).isNone = hasUnassignedBoolSpread s
  | .Spread e => by
      have h := displayExpression_isNone e
      simp only [displaySpreadOrExpression, hasUnassignedBoolSpread]
      cases d : displayExpression e <;> simp_all
  | .Expression e => by
      have h := displayExpression_isNone e
      simp only [displaySpreadOrExpression, hasUnassignedBoolSpread]
      exact h
termination_by s => sizeOf s

/-- Entry lists fail iff one entry contains an unassigned boolean. -/
theorem displaySpreadOrExpressionList_isNone : ∀ l : List SpreadOrExpression,
    (displaySpreadOrExpressionList l).isNone = hasUnassignedBoolSpreadList l
  | [] => by simp [displaySpreadOrExpressionList, hasUnassignedBoolSpreadList]
  | e :: rest => by
      have h1 := displaySpreadOrExpression_isNone e
      have h2 := displaySpreadOrExpressionList_isNone rest
      simp only [displaySpreadOrExpressionList, hasUnassignedBoolSpreadList]
      cases d1 : displaySpreadOrExpression e <;>
        cases d2 : displaySpreadOrExpressionList rest <;> simp_all
termination_by l => sizeOf l

/-- Index positions fail iff an index expression contains an unassigned
boolean. -/
theorem displayRangeOrExpression_isNone : ∀ r : RangeOrExpression,
    (displayRangeOrExpression r).isNone = hasUnassignedBoolRange r
  | .Range lo hi => by
      simp [displayRangeOrExpression, hasUnassignedBoolRange]
  | .Expression e => by
      have h := displayExpression_isNone e
      simp only [displayRangeOrExpression, hasUnassignedBoolRange]
      exact h
termination_by r => sizeOf r

/-- Record members fail iff the initializer contains an unassigned
boolean. -/
theorem displayMember_isNone : ∀ m : CircuitFieldDefinition,
    (displayMember m).isNone = hasUnassignedBoolMember m
  | .mk identifier e => by
      have h := displayExpression_isNone e
      simp only [displayMember, hasUnassignedBoolMember]
      cases d : displayExpression e <;> simp_all
termination_by m => sizeOf m

/-- Member lists fail iff one member contains an unassigned boolean. -/
theorem displayMemberList_isNone : ∀ l : List CircuitFieldDefinition,
    (displayMemberList l).isNone = hasUnassignedBoolMemberList l
  | [] => by simp [displayMemberList, hasUnassignedBoolMemberList]
  | m :: rest => by
      have h1 := displayMember_isNone m
      have h2 := displayMemberList_isNone rest
      simp only [displayMemberList, hasUnassignedBoolMemberList]
      cases d1 : displayMember m <;>
        cases d2 : displayMemberList rest <;> simp_all
termination_by l => sizeOf l

end

-- ----------------------------------------------------------------------
-- Claim theorems on the IR and its lowering.
-- ----------------------------------------------------------------------

/-- C9: Display of the expression IR is partial exactly on unassigned
boolean leaves: formatting fails iff the expression contains a Boolean
gadget leaf with no assigned witness value (the `unwrap` in the Boolean
arm), a Boolean leaf with an assigned value renders as the concrete
true/false text, and no other variant inspects witness assignments. -/
theorem display_partial_on_boolean_only :
    (∀ e : Expression, (displayExpression e).isNone = hasUnassignedBool e) ∧
    (∀ (g : Boolean) (b : Bool), Boolean.get_value g = some b →
      displayExpression (Expression.Boolean g) =
        some (if b then "true" else "false")) := by
  refine ⟨displayExpression_isNone, fun g b h => ?_⟩
  simp [displayExpression, h]

/-- C9 witness: a constant-true boolean gadget renders as "true", and an
allocated-but-unassigned boolean gadget fails to format. -/
theorem display_partial_on_boolean_only_witness :
    displayExpression (Expression.Boolean (Boolean.constant true)) =
      some "true" ∧
    (displayExpression (Expression.Boolean (Boolean.allocated none))).isNone
      = hasUnassignedBool (Expression.Boolean (Boolean.allocated none)) :=
  ⟨display_partial_on_boolean_only.2 (Boolean.constant true) true rfl,
    display_partial_on_boolean_only.1
      (Expression.Boolean (Boolean.allocated none))⟩

/-- C1: lowering a not-equal binary expression never terminates — at
every fuel bound the `Ne` arm recurses on the unchanged expression and
runs out of fuel — so it never returns the
Not(Eq(lower(left), lower(right), span)) value the spec describes. -/
theorem ne_lowering_diverges (fuel : Nat) (left right : AstExpression)
    (span : Span) :
    lowerBinaryExpression fuel
      (BinaryExpression.mk BinaryOperation.ne left right span) = none := by
  induction fuel with
  | zero => simp [lowerBinaryExpression]
  | succ n ih => simp [lowerBinaryExpression, ih]

/-- Appending one access to a postfix chain post-composes exactly one
fold step onto the lowering of the shorter chain. -/
theorem lowerAccessChain_append (fuel : Nat) (acc : Expression)
    (xs : List Access) (a : Access) :
    lowerAccessChain fuel acc (xs ++ [a]) =
      (lowerAccessChain fuel acc xs).bind
        (fun e => lowerAccessStep fuel e a) := by
  induction xs generalizing acc with
  | nil =>
      simp only [List.nil_append, Option.bind]
      cases h : lowerAccessStep fuel acc a <;>
        simp [lowerAccessChain, h]
  | cons x rest ih =>
      simp only [List.cons_append, lowerAccessChain]
      cases h : lowerAccessStep fuel acc x <;> simp [h, ih]

/-- The parse-tree postfix expression `a(1)[2].b`. -/
def postfixSample : AstExpression :=
  .postfixExpr (.mk ⟨"a", ⟨1, 1⟩⟩
    [ .call (.mk [.value (.implicit ⟨⟨"1"⟩⟩)] ⟨1, 2⟩),
      .array (.mk (.expression (.value (.implicit ⟨⟨"2"⟩⟩))) ⟨1, 3⟩),
      .object ⟨⟨"b", ⟨1, 5⟩⟩, ⟨1, 4⟩⟩ ]
    ⟨1, 0⟩)

/-- The expected lowering of `a(1)[2].b`:
CircuitMemberAccess(ArrayAccess(FunctionCall(a, [1]), 2), b). -/
def postfixSampleLowered : Expression :=
  .CircuitMemberAccess
    (.ArrayAccess
      (.FunctionCall (.Identifier ⟨"a", ⟨1, 1⟩⟩) [.Implicit "1"] ⟨1, 2⟩)
      (.Expression (.Implicit "2")) ⟨1, 3⟩)
    ⟨"b", ⟨1, 5⟩⟩ ⟨1, 4⟩

/-- C4: lowering left-folds a postfix chain's accesses onto the
accumulator — appending one more access wraps the previous result in
that access's node, so textual left-to-right order becomes innermost-to-
outermost wrapping — and lowering `a(1)[2].b` yields
CircuitMemberAccess(ArrayAccess(FunctionCall(a, [1]), 2), b) at every
fuel bound. -/
theorem postfix_lowering_left_fold :
    (∀ (fuel : Nat) (id : Identifier) (sp : Span) (accs : List Access)
        (a : Access),
      lowerPostfixExpression fuel (.mk id (accs ++ [a]) sp) =
        (lowerPostfixExpression fuel (.mk id accs sp)).bind
          (fun e => lowerAccessStep fuel e a)) ∧
    (∀ fuel : Nat,
      lowerAstExpression fuel postfixSample = some postfixSampleLowered) := by
  constructor
  · intro fuel id sp accs a
    simp only [lowerPostfixExpression]
    exact lowerAccessChain_append fuel _ accs a
  · intro fuel
    simp [postfixSample, postfixSampleLowered, lowerAstExpression,
      lowerPostfixExpression, lowerAccessChain, lowerAccessStep,
      lowerExpressionList, lowerRangeOrExpression, lowerValue]

/-- C5: lowering `[e; N]` whose count literal reads back as N yields an
Array node of exactly N elements, each structurally equal to the lowered
element expression. -/
theorem array_initializer_replicates (fuel : Nat)
    (el : AstSpreadOrExpression) (count : AstValue) (sp : Span) (n : Nat)
    (el2 : SpreadOrExpression)
    (hc : get_count count = some n)
    (he : lowerSpreadOrExpression fuel el = some el2) :
    lowerArrayInitializerExpression fuel (.mk el count sp) =
      some (Expression.Array (List.replicate n el2) sp) ∧
    (List.replicate n el2).length = n ∧
    ∀ x ∈ List.replicate n el2, x = el2 := by
  refine ⟨?_, by simp, fun x hx => List.eq_of_mem_replicate hx⟩
  simp [lowerArrayInitializerExpression, hc, he]

/-- The element of the sample array initializer `[true; 4]`. -/
def initSampleElem : AstSpreadOrExpression :=
  .expression (.value (.boolean ⟨"true"⟩))

/-- The lowered element of the sample array initializer. -/
def initSampleElemLowered : SpreadOrExpression :=
  .Expression (.Boolean (.constant true))

/-- C5 witness: lowering `[true; 4]` yields an Array of four elements,
all equal to the lowered element. -/
theorem array_initializer_replicates_witness :
    get_count (AstValue.implicit ⟨⟨"4"⟩⟩) = some 4 ∧
    lowerSpreadOrExpression 0 initSampleElem = some initSampleElemLowered ∧
    (lowerArrayInitializerExpression 0
        (.mk initSampleElem (AstValue.implicit ⟨⟨"4"⟩⟩) ⟨2, 0⟩) =
      some (Expression.Array (List.replicate 4 initSampleElemLowered)
        ⟨2, 0⟩) ∧
      (List.replicate 4 initSampleElemLowered).length = 4 ∧
      ∀ x ∈ List.replicate 4 initSampleElemLowered,
        x = initSampleElemLowered) := by
  have hc : get_count (AstValue.implicit ⟨⟨"4"⟩⟩) = some 4 := by decide
  have he : lowerSpreadOrExpression 0 initSampleElem =
      some initSampleElemLowered := by
    simp [initSampleElem, initSampleElemLowered, lowerSpreadOrExpression,
      lowerAstExpression, lowerValue, lowerBooleanValue, parseBool]
  exact ⟨hc, he, array_initializer_replicates 0 _ _ _ _ _ hc he⟩

end Leo.Types
